import Mathlib

/-!
Verification of the codebase-context-mcp indexing and retrieval engine.

The definitions below are a shallow embedding of the TypeScript sources:
  - `src/parsers/index.ts` (language configs; search: `searchCode`,
    `searchSymbols`, `getFileOutline`)
  - `src/parsers/tree-sitter.ts` (`extractSymbolInfo`, `parseVbNet`, `parseXml`)
  - `src/utils/files.ts` (`walkDirectory`)
  - `src/indexer/store.ts` (the `ProjectIndex` data model)

JavaScript numbers are modelled as `ℚ` where the code only performs exact
arithmetic (symbol-search scores) and as `ℝ` where `Math.log` is involved
(BM25 scores).  JavaScript strings are modelled as `String`, with all string
operations defined over `String.data` (`List Char`) so that they evaluate by
kernel reduction. Effectful inputs (the file system, regular-expression
engines) are passed as explicit function parameters.
-/

/-- JS `s.toLowerCase()`. -/
def strToLower (s : String) : String :=
  (s.data.map Char.toLower).asString

/-- JS `s.slice(0, n)`. -/
def strTake (s : String) (n : Nat) : String :=
  (s.data.take n).asString

/-- JS `s.trim()`: drop whitespace from both ends. -/
def strTrim (s : String) : String :=
  (((s.data.dropWhile Char.isWhitespace).reverse.dropWhile Char.isWhitespace).reverse).asString

/-- JS `s.startsWith (p)`: `p` is a prefix of `s`. -/
def strStartsWith (s p : String) : Bool :=
  p.data.isPrefixOf s.data

/-- JS `s.includes (sub)`: `sub` occurs contiguously inside `s`. -/
def strIncludes (s sub : String) : Bool :=
  decide (sub.data <:+: s.data)

/-- JS `content.split('\n')`. -/
def strSplitLines (s : String) : List String :=
  (s.data.splitOn '\n').map List.asString

/-- Modelled from the spec: the Tokenizer component (`tokenize` in
`src/indexer/indexer.ts`, a file whose source is not available here).
Per spec §4.1 it lower-cases the input, replaces every character outside
`[a-z0-9_$]` with a separator, splits on separator runs, and discards
tokens of length ≤ 1. -/
def isTokenChar (c : Char) : Bool :=
  ('a' ≤ c && c ≤ 'z') || ('0' ≤ c && c ≤ '9') || c == '_' || c == '$'

/-- Modelled from the spec: `tokenize(text) -> sequence of string` (§4.1).
Deterministic and pure; used identically for documents and queries. -/
def tokenize (text : String) : List String :=
  ((((strToLower text).data.map (fun c => if isTokenChar c then c else ' ')).splitOn ' ').filter
    (fun t => 1 < t.length)).map List.asString

/-- `IndexedSymbol` from `src/indexer/store.ts`. -/
structure IndexedSymbol where
  name : String
  kind : String
  filePath : String
  startLine : Nat
  endLine : Nat
  signature : String
  parentName : Option String
  docComment : Option String
  bodyPreview : String
deriving DecidableEq

/-- `IndexedFile` from `src/indexer/store.ts`. -/
structure IndexedFile where
  language : String
  hash : String
  sizeBytes : Nat
  symbols : List IndexedSymbol
  imports : List String
  exports : List String
deriving DecidableEq

/-- `ProjectIndex` from `src/indexer/store.ts`.  `files` is an association
list modelling the JS object (`Object.entries` preserves insertion order);
`vocabulary` maps a term to its document frequency. -/
structure ProjectIndex where
  rootDir : String
  indexedAt : String
  fileCount : Nat
  symbolCount : Nat
  files : List (String × IndexedFile)
  vocabulary : List (String × Nat)
deriving DecidableEq

/-- `index.vocabulary[term] || 0`. -/
def vocabDf (vocab : List (String × Nat)) (t : String) : Nat :=
  (vocab.lookup t).getD 0

/-- `SymbolSearchResult` from `src/indexer/search.ts`. -/
structure SymbolSearchResult where
  symbol : IndexedSymbol
  score : ℚ
deriving DecidableEq

/-- JS `Array.prototype.sort((a, b) => b.score - a.score)`: a stable
descending sort on the score.  `List.insertionSort` with this relation is
stable in exactly the way the JS engine's sort is. -/
def sortSymResults (l : List SymbolSearchResult) : List SymbolSearchResult :=
  List.insertionSort (fun a b => b.score ≤ a.score) l

/-- The score computation inside the `searchSymbols` loop
(`src/indexer/search.ts`): first applicable rule of exact / starts-with /
contains / token-overlap. -/
def symbolScore (queryLower : String) (queryTerms : List String) (sym : IndexedSymbol) : ℚ :=
  let nameLower := strToLower sym.name
  if nameLower = queryLower then 10
  else if strStartsWith nameLower queryLower then 7
  else if strIncludes nameLower queryLower then 5
  else
    let nameTokens := tokenize sym.name
    let overlap := (queryTerms.filter
      (fun t => nameTokens.any (fun nt => strIncludes nt t || strIncludes t nt))).length
    if 0 < overlap then ((overlap : ℚ) / (queryTerms.length : ℚ)) * 3 else 0

/-- The `if (kind && symbol.kind !== kind) continue` filter. -/
def kindOk (kind : Option String) (sym : IndexedSymbol) : Bool :=
  match kind with
  | none => true
  | some k => sym.kind == k

/-- `searchSymbols` from `src/indexer/search.ts`. -/
def searchSymbols (index : ProjectIndex) (query : String) (kind : Option String)
    (maxResults : Nat) : List SymbolSearchResult :=
  let queryLower := strToLower query
  let queryTerms := tokenize query
  let results := index.files.flatMap (fun p =>
    p.2.symbols.filterMap (fun sym =>
      if kindOk kind sym then
        let score := symbolScore queryLower queryTerms sym
        if 0 < score then some ⟨sym, score⟩ else none
      else none))
  (sortSymResults results).take maxResults

example : tokenize "foo Bar-baz x" = ["foo", "bar", "baz"] := by decide
example : strStartsWith "foobar" "foo" = true := by decide
example : strIncludes "barfoo" "foo" = true := by decide

/-- BM25 parameter `K1 = 1.2` from `src/indexer/search.ts`. -/
def bm25K1 : ℝ := 1.2

/-- BM25 parameter `B = 0.75` from `src/indexer/search.ts`. -/
def bm25B : ℝ := 0.75

/-- `MatchedLine` entries of a `SearchResult` (`src/indexer/search.ts`). -/
structure MatchedLine where
  lineNumber : Nat
  content : String
deriving DecidableEq

/-- `SearchResult` from `src/indexer/search.ts`. -/
structure SearchResult where
  filePath : String
  score : ℝ
  matchedLines : List MatchedLine

/-- The synthetic document of a file:
`[filePath, ...symbols.map(s => `${s.name} ${s.signature} ${s.bodyPreview}`),
  ...imports, ...exports].join(' ')`. -/
def docText (filePath : String) (f : IndexedFile) : String :=
  String.intercalate " "
    ([filePath] ++ f.symbols.map (fun s => s.name ++ " " ++ s.signature ++ " " ++ s.bodyPreview)
      ++ f.imports ++ f.exports)

/-- One step of building the JS term-frequency object: `tf[t] = (tf[t] || 0) + 1`. -/
def tfBump : List (String × Nat) → String → List (String × Nat)
  | [], t => [(t, 1)]
  | (k, v) :: rest, t => if k = t then (k, v + 1) :: rest else (k, v) :: tfBump rest t

/-- The term-frequency map of a document, built exactly as the
`for (const t of docTokens) tf[t] = (tf[t] || 0) + 1` loop does. -/
def buildTf (docTokens : List String) : List (String × Nat) :=
  docTokens.foldl tfBump []

/-- `tf[term] || 0`. -/
def lookupTf (m : List (String × Nat)) (t : String) : Nat :=
  (m.lookup t).getD 0

/-- JS `path.join(rootDir, filePath)` (modelled as separator concatenation). -/
def joinPath (a b : String) : String :=
  a ++ "/" ++ b

/-- The line-match predicate of `searchCode`:
`lines[i].toLowerCase().includes(queryLower) || queryTerms.some(t => lines[i].toLowerCase().includes(t))`. -/
def lineMatches (queryLower : String) (queryTerms : List String) (line : String) : Bool :=
  strIncludes (strToLower line) queryLower
    || queryTerms.any (fun t => strIncludes (strToLower line) t)

/-- The matched-line collection loop of `searchCode`: pushes
`{lineNumber: i + 1, content: lines[i].slice(0, 200)}` for matching lines and
breaks once 5 lines are collected.  `allowed` is the remaining capacity. -/
def collectMatched (queryLower : String) (queryTerms : List String) :
    Nat → List (Nat × String) → List MatchedLine
  | _, [] => []
  | 0, _ :: _ => []
  | allowed + 1, (i, line) :: rest =>
    if lineMatches queryLower queryTerms line then
      ⟨i + 1, strTake line 200⟩ :: collectMatched queryLower queryTerms allowed rest
    else
      collectMatched queryLower queryTerms (allowed + 1) rest

/-- The matched lines of one positive-score file: `readFileContent` returning
`null` (here `none`) yields an empty list; otherwise the first 5 matching
lines of the on-disk content. -/
def matchedLinesFor (query : String) (queryTerms : List String) (content? : Option String) :
    List MatchedLine :=
  match content? with
  | none => []
  | some content =>
    collectMatched (strToLower query) queryTerms 5 (strSplitLines content).enum

/-- The BM25 idf of the code and of the claim alike:
`Math.log((N - df + 0.5) / (df + 0.5) + 1)`. -/
noncomputable def idfOf (n df : Nat) : ℝ :=
  Real.log (((n : ℝ) - (df : ℝ) + 0.5) / ((df : ℝ) + 0.5) + 1)

/-- The BM25 normalized term frequency of the code and of the claim alike:
`(tf * (K1 + 1)) / (tf + K1 * (1 - B + B * (dl / avgDl)))`. -/
noncomputable def tfNormOf (tf dl : Nat) (avgDl : ℝ) : ℝ :=
  ((tf : ℝ) * (bm25K1 + 1)) /
    ((tf : ℝ) + bm25K1 * (1 - bm25B + bm25B * ((dl : ℝ) / avgDl)))

/-- The score accumulation loop of `searchCode` for one file: for each query
term with non-zero term frequency in the term-frequency map add
`idf * tfNorm`. -/
noncomputable def fileScore (n : Nat) (vocab : List (String × Nat)) (avgDl : ℝ)
    (queryTerms docTokens : List String) : ℝ :=
  queryTerms.foldl (fun score term =>
    if lookupTf (buildTf docTokens) term = 0 then score
    else score + idfOf n (vocabDf vocab term)
      * tfNormOf (lookupTf (buildTf docTokens) term) docTokens.length avgDl) 0

/-- `avgDl`: the sum over files of `symbols.length + imports.length`, divided
by `Math.max(N, 1)` where `N = index.fileCount`. -/
noncomputable def avgDlOf (index : ProjectIndex) : ℝ :=
  ((index.files.map (fun p => ((p.2.symbols.length + p.2.imports.length : Nat) : ℝ))).sum)
    / ((max index.fileCount 1 : Nat) : ℝ)

/-- JS stable descending sort of search results by score. -/
noncomputable def sortResults (l : List SearchResult) : List SearchResult :=
  List.insertionSort (fun a b => b.score ≤ a.score) l

/-- `searchCode` from `src/indexer/search.ts`.  `readF` models
`readFileContent` on the file system current at query time. -/
noncomputable def searchCode (index : ProjectIndex) (query : String)
    (readF : String → Option String) (maxResults : Nat) : List SearchResult :=
  let queryTerms := tokenize query
  if queryTerms = [] then []
  else
    let avgDl := avgDlOf index
    let results := index.files.filterMap (fun p =>
      let score := fileScore index.fileCount index.vocabulary avgDl queryTerms
        (tokenize (docText p.1 p.2))
      if 0 < score then
        some ⟨p.1, score, matchedLinesFor query queryTerms (readF (joinPath index.rootDir p.1))⟩
      else none)
    (sortResults results).take maxResults

/-- The claim's file score: the sum, over query terms with positive term
frequency in the document, of `idf * tfNorm`, with `tf` the number of
occurrences of the term among the document's tokens (not a mutable map). -/
noncomputable def specFileScore (n : Nat) (vocab : List (String × Nat)) (avgDl : ℝ)
    (queryTerms docTokens : List String) : ℝ :=
  ((queryTerms.filter (fun t => docTokens.count t ≠ 0)).map
    (fun t => idfOf n (vocabDf vocab t) * tfNormOf (docTokens.count t) docTokens.length avgDl)).sum

/-- The claim's `avgDl`: the mean over files of `symbol count + import count`. -/
noncomputable def specAvgDl (index : ProjectIndex) : ℝ :=
  ((index.files.map (fun p => ((p.2.symbols.length + p.2.imports.length : Nat) : ℝ))).sum)
    / ((index.files.length : Nat) : ℝ)

/-- The claim's matched-lines for one file: the first 5 lines (in file order)
satisfying the match predicate, each with 1-based line number and content
truncated to 200 characters. -/
def specMatchedLines (query : String) (content? : Option String) : List MatchedLine :=
  match content? with
  | none => []
  | some content =>
    ((((strSplitLines content).enum).filter
        (fun p => lineMatches (strToLower query) (tokenize query) p.2)).take 5).map
      (fun p => ⟨p.1 + 1, strTake p.2 200⟩)

/-- The whole `searchCode` pipeline as the claim states it: score every file
by `specFileScore`, keep positive scores, sort descending, truncate. -/
noncomputable def specSearchCode (index : ProjectIndex) (query : String)
    (readF : String → Option String) (maxResults : Nat) : List SearchResult :=
  let queryTerms := tokenize query
  let results := index.files.filterMap (fun p =>
    let score := specFileScore index.fileCount index.vocabulary (specAvgDl index) queryTerms
      (tokenize (docText p.1 p.2))
    if 0 < score then
      some ⟨p.1, score, matchedLinesFor query queryTerms (readF (joinPath index.rootDir p.1))⟩
    else none)
  (sortResults results).take maxResults

/-- The return shape of `getFileOutline`. -/
structure Outline where
  symbols : List IndexedSymbol
  imports : List String
  exports : List String
deriving DecidableEq

/-- JS `file.symbols.sort((a, b) => a.startLine - b.startLine)`: a stable
ascending sort by start line. -/
def sortByStartLine (syms : List IndexedSymbol) : List IndexedSymbol :=
  List.insertionSort (fun a b => a.startLine ≤ b.startLine) syms

/-- `getFileOutline` from `src/indexer/search.ts`.  JS
`Array.prototype.sort` sorts IN PLACE, so the call rewrites the stored
`symbols` array of the looked-up file; the second component is the
`ProjectIndex` as it stands after the call. -/
def getFileOutline (index : ProjectIndex) (filePath : String) :
    Option Outline × ProjectIndex :=
  match index.files.lookup filePath with
  | none => (none, index)
  | some f =>
    let sorted := sortByStartLine f.symbols
    (some ⟨sorted, f.imports, f.exports⟩,
      { index with files :=
          index.files.map (fun p =>
            if p.1 = filePath then (p.1, { p.2 with symbols := sorted }) else p) })

/-- `FileEntry` from `src/utils/files.ts`. -/
structure FileEntry where
  relativePath : String
  absolutePath : String
  sizeBytes : Nat
deriving DecidableEq

/-- The result of `fs.stat`: size and `isFile()`. -/
structure FileStat where
  size : Nat
  isFile : Bool
deriving DecidableEq

/-- `MAX_FILES = 20_000` from `src/utils/files.ts`. -/
def MAX_FILES : Nat := 20000

/-- `MAX_FILE_SIZE = 512 * 1024` from `src/utils/files.ts`. -/
def MAX_FILE_SIZE : Nat := 512 * 1024

/-- The `for (const relPath of matches)` loop of `walkDirectory`:
`cnt` is the number of entries pushed so far (`entries.length`).
`ig` models `ig.ignores` (default excludes plus root `.gitignore`),
`statF` models `fs.stat` (`none` = stat failure). -/
def walkLoop (ig : String → Bool) (statF : String → Option FileStat) (rootDir : String) :
    List String → Nat → List FileEntry
  | [], _ => []
  | rel :: rest, cnt =>
    if MAX_FILES ≤ cnt then []
    else if ig rel then walkLoop ig statF rootDir rest cnt
    else
      match statF (joinPath rootDir rel) with
      | none => walkLoop ig statF rootDir rest cnt
      | some info =>
        if MAX_FILE_SIZE < info.size then walkLoop ig statF rootDir rest cnt
        else if !info.isFile then walkLoop ig statF rootDir rest cnt
        else ⟨rel, joinPath rootDir rel, info.size⟩ :: walkLoop ig statF rootDir rest (cnt + 1)

/-- `walkDirectory` from `src/utils/files.ts`.  `matches` is the glob result
(the walker's deterministic enumeration order). -/
def walkDirectory (ig : String → Bool) (statF : String → Option FileStat) (rootDir : String)
    (globMatches : List String) : List FileEntry :=
  walkLoop ig statF rootDir globMatches 0

/-- A file entry passes the walk filters: not ignored, stat succeeds, within
the size cap, and a regular file. -/
def walkEligible (ig : String → Bool) (statF : String → Option FileStat) (rootDir : String)
    (rel : String) : Bool :=
  !ig rel &&
    match statF (joinPath rootDir rel) with
    | none => false
    | some info => decide (info.size ≤ MAX_FILE_SIZE) && info.isFile

/-- The entry built for an eligible relative path. -/
def walkEntry (statF : String → Option FileStat) (rootDir : String) (rel : String) : FileEntry :=
  ⟨rel, joinPath rootDir rel, ((statF (joinPath rootDir rel)).map (fun i => i.size)).getD 0⟩

/-- `SymbolInfo` from `src/parsers/tree-sitter.ts`. -/
structure SymbolInfo where
  name : String
  kind : String
  startLine : Nat
  endLine : Nat
  signature : String
  parentName : Option String
  docComment : Option String
  bodyPreview : String
deriving DecidableEq

/-- `ParseResult` from `src/parsers/tree-sitter.ts`. -/
structure ParseResult where
  symbols : List SymbolInfo
  imports : List String
  exports : List String
deriving DecidableEq

/-- A referenced tree node, as `extractSymbolInfo` reads it: its node type
and source text. -/
structure NodeRef where
  type : String
  text : String
deriving DecidableEq

/-- The view of a `web-tree-sitter` `SyntaxNode` that `extractSymbolInfo`
consumes: node type, 0-based start/end rows, the children reachable through
`childForFieldName`, and `previousNamedSibling`. -/
structure TsNode where
  type : String
  startRow : Nat
  endRow : Nat
  fields : List (String × NodeRef)
  prevNamedSibling : Option NodeRef
deriving DecidableEq

/-- `node.childForFieldName(f)`. -/
def childField (n : TsNode) (f : String) : Option NodeRef :=
  n.fields.lookup f

/-- `nodeTypeToKind` from `src/parsers/tree-sitter.ts`. -/
def nodeTypeToKind (t : String) : String :=
  ((([
    ("function_declaration", "function"),
    ("function_definition", "function"),
    ("method_definition", "method"),
    ("method_declaration", "method"),
    ("constructor_declaration", "constructor"),
    ("class_declaration", "class"),
    ("class_definition", "class"),
    ("interface_declaration", "interface"),
    ("type_alias_declaration", "type"),
    ("enum_declaration", "enum"),
    ("arrow_function", "function"),
    ("variable_declarator", "variable"),
    ("decorated_definition", "function"),
    ("namespace_declaration", "namespace"),
    ("struct_declaration", "struct"),
    ("property_declaration", "property"),
    ("delegate_declaration", "delegate"),
    ("event_declaration", "event"),
    ("field_declaration", "field")] : List (String × String)).lookup t).getD "unknown")

/-- `extractSymbolInfo` from `src/parsers/tree-sitter.ts` (lines 199-259):
name from the `name`/`declarator` field (with the variable-declarator
reclassification), `null` when no name, 1-based lines from the node rows,
signature from the trimmed start line (`+ '...'` past 200 characters), doc
comment from a preceding comment sibling, body preview from the first up-to-3
lines. -/
def extractSymbolInfo (node : TsNode) (lines : List String) (parentName : Option String) :
    Option SymbolInfo :=
  let name0 := match (childField node "name").orElse (fun _ => childField node "declarator") with
    | some nn => nn.text
    | none => ""
  let kind0 := nodeTypeToKind node.type
  let nk : String × String :=
    if node.type = "variable_declarator" then
      let kind1 := match childField node "value" with
        | some v =>
          if v.type = "arrow_function" ∨ v.type = "function_expression" ∨ v.type = "function"
          then "function" else "variable"
        | none => "variable"
      let name1 := match childField node "name" with
        | some id => id.text
        | none => name0
      (name1, kind1)
    else (name0, kind0)
  if nk.1 = "" then none
  else
    let startLine := node.startRow + 1
    let endLine := node.endRow + 1
    let sigLine := strTrim (lines.getD (startLine - 1) "")
    let signature := if 200 < sigLine.length then strTake sigLine 200 ++ "..." else sigLine
    let docComment := match node.prevNamedSibling with
      | some ps => if ps.type = "comment" then some (strTake ps.text 200) else none
      | none => none
    let bodyLines := (lines.drop (startLine - 1)).take (min (startLine + 2) endLine - (startLine - 1))
    let bodyPreview := strTake (String.intercalate "\n" bodyLines) 300
    some ⟨nk.1, nk.2, startLine, endLine, signature, parentName, docComment, bodyPreview⟩

/-- One entry of the `patterns` array of `parseVbNet`: the regular
expression is modelled as a matcher returning the captured name, paired with
the construct kind. -/
structure VbPattern where
  matchName : String → Option String
  kind : String

/-- The kinds that push onto the VB parent stack:
`['class', 'interface', 'namespace', 'struct'].includes(kind)`. -/
def vbContainerKinds : List String :=
  ["class", "interface", "namespace", "struct"]

/-- The forward scan of `parseVbNet` for the construct's end line: the first
`j > i` whose line matches the end pattern gives `endLine = j + 1`, else
`endLine` stays at `startLine = i + 1`. -/
def vbFindEnd (endPat : String → Bool) (lines : List String) (i : Nat) : Nat :=
  match (List.range' (i + 1) (lines.length - (i + 1))).find?
      (fun j => endPat (lines.getD j "")) with
  | some j => j + 1
  | none => i + 1

/-- The mutable state of the `parseVbNet` line loop: the parent stack (top
first), the symbols and the imports collected so far. -/
structure VbState where
  stack : List String
  symbols : List SymbolInfo
  imports : List String

/-- The symbol record pushed by `parseVbNet` when line `i` matches a pattern
capturing `name` with construct `kind`; `top` is the current parent-stack
top. -/
def vbSymbol (endPats : String → Option (String → Bool)) (lines : List String)
    (top : Option String) (i : Nat) (name kind : String) : SymbolInfo :=
  let startLine := i + 1
  let endLine := match endPats kind with
    | some ep => vbFindEnd ep lines i
    | none => startLine
  let line := lines.getD i ""
  let bodyLines := (lines.drop i).take (min (i + 3) endLine - i)
  ⟨name, kind, startLine, endLine, strTake (strTrim line) 200, top, none,
    strTake (String.intercalate "\n" bodyLines) 300⟩

/-- The symbols emitted at line `i` of the `parseVbNet` loop: one symbol for
the first matching pattern, none when no pattern matches.  `top` is the
parent-stack top at that line. -/
def vbStepSyms (pats : List VbPattern) (endPats : String → Option (String → Bool))
    (lines : List String) (top : Option String) (i : Nat) : List SymbolInfo :=
  match pats.findSome? (fun p => (p.matchName (lines.getD i "")).map (fun n => (n, p.kind))) with
  | none => []
  | some nk => [vbSymbol endPats lines top i nk.1 nk.2]

/-- One iteration of the `parseVbNet` line loop (`src/parsers/tree-sitter.ts`
lines 337-387).  `pats` models the ordered pattern list, `endPats` the
`endPatterns` record (`none` for kinds such as `delegate` that have no end
pattern), `isImport` the `Imports` test, and `isEndContainer` the
`End Class|Interface|Namespace|Module|Structure` test.  An `Imports` line is
recorded and skipped (`continue`); otherwise the first matching pattern (if
any) emits a symbol and container kinds push onto the parent stack; finally
an end-of-container line pops the stack. -/
def vbStep (pats : List VbPattern) (endPats : String → Option (String → Bool))
    (isImport : String → Bool) (isEndContainer : String → Bool)
    (lines : List String) (st : VbState) (i : Nat) : VbState :=
  let line := lines.getD i ""
  if isImport line then
    { st with imports := st.imports ++ [strTake (strTrim line) 200] }
  else
    let stack1 :=
      match pats.findSome? (fun p => (p.matchName line).map (fun n => (n, p.kind))) with
      | none => st.stack
      | some nk => if nk.2 ∈ vbContainerKinds then nk.1 :: st.stack else st.stack
    let stack2 := if isEndContainer line then stack1.tail else stack1
    ⟨stack2, st.symbols ++ vbStepSyms pats endPats lines st.stack.head? i, st.imports⟩

/-- `parseVbNet` from `src/parsers/tree-sitter.ts`, with the regular
expressions abstracted as matcher parameters.  Scans the lines in order,
threading the parent stack. -/
def parseVbNetWith (pats : List VbPattern) (endPats : String → Option (String → Bool))
    (isImport : String → Bool) (isEndContainer : String → Bool) (content : String) :
    ParseResult :=
  let lines := strSplitLines content
  let final := (List.range lines.length).foldl
    (vbStep pats endPats isImport isEndContainer lines) ⟨[], [], []⟩
  ⟨final.symbols, final.imports, []⟩

/-- The mutable state of the `parseXml` line loop: the element stack (top
first) and the symbols collected so far. -/
structure XmlState where
  stack : List String
  symbols : List SymbolInfo

/-- The symbol record pushed by `parseXml` for an opening element on line
`i` with tag `tag` and attribute-derived name `nameAttr`; `top` is the
current element-stack top. -/
def xmlSymbol (closeTagTest : String → String → Bool) (lines : List String)
    (top : Option String) (i : Nat) (tag : String) (nameAttr : Option String)
    (isSelfClosing : Bool) : SymbolInfo :=
  let symbolName := match nameAttr with
    | some v => tag ++ "[" ++ v ++ "]"
    | none => tag
  let endLine :=
    if isSelfClosing then i + 1
    else
      match (List.range' (i + 1) (lines.length - (i + 1))).find?
          (fun j => closeTagTest tag (lines.getD j "")) with
      | some j => j + 1
      | none => i + 1
  let line := lines.getD i ""
  let bodyLines := (lines.drop i).take (min (i + 3) endLine - i)
  ⟨symbolName, "element", i + 1, endLine, strTake (strTrim line) 200, top, none,
    strTake (String.intercalate "\n" bodyLines) 300⟩

/-- The symbols emitted at line `i` of the `parseXml` loop: one symbol when
an opening element matches at shallow depth.  `stack1` is the element stack
after processing a closing tag on the same line. -/
def xmlStepSyms (elemMatch : String → Option (Nat × String × String))
    (nameAttrOf : String → Option String) (closeTagTest : String → String → Bool)
    (lines : List String) (stack1 : List String) (i : Nat) : List SymbolInfo :=
  match elemMatch (lines.getD i "") with
  | none => []
  | some ita =>
    if ita.1 ≤ 8 ∨ stack1.length ≤ 2 then
      [xmlSymbol closeTagTest lines stack1.head? i ita.2.1 (nameAttrOf ita.2.2)
        (strIncludes (lines.getD i "") "/>")]
    else []

/-- One iteration of the `parseXml` line loop (`src/parsers/tree-sitter.ts`
lines 416-468).  `elemMatch` models the opening-element regex, giving the
indent width, the tag, and the attribute text; `closeMatch` models the
closing-tag regex; `nameAttrOf` the significant-attribute extraction;
`closeTagTest tag` the per-tag closing regex.  A matching closing tag pops
the stack; an opening element at shallow depth emits a symbol, and
non-self-closing elements push their tag. -/
def xmlStep (elemMatch : String → Option (Nat × String × String))
    (closeMatch : String → Option String) (nameAttrOf : String → Option String)
    (closeTagTest : String → String → Bool)
    (lines : List String) (st : XmlState) (i : Nat) : XmlState :=
  let line := lines.getD i ""
  let stack1 :=
    match closeMatch line with
    | some tag => if st.stack.head? = some tag then st.stack.tail else st.stack
    | none => st.stack
  let stack2 :=
    match elemMatch line with
    | none => stack1
    | some ita => if strIncludes line "/>" then stack1 else ita.2.1 :: stack1
  ⟨stack2, st.symbols ++ xmlStepSyms elemMatch nameAttrOf closeTagTest lines stack1 i⟩

/-- `parseXml` from `src/parsers/tree-sitter.ts`, with the regular
expressions abstracted as matcher parameters.  `isXmlDecl` models the
`<?xml` test on line 0 and `nsImports` the `xmlns` scan over the first 2000
characters. -/
def parseXmlWith (elemMatch : String → Option (Nat × String × String))
    (closeMatch : String → Option String) (nameAttrOf : String → Option String)
    (closeTagTest : String → String → Bool) (isXmlDecl : String → Bool)
    (nsImports : String → List String) (content : String) : ParseResult :=
  let lines := strSplitLines content
  let imports0 :=
    (if isXmlDecl (lines.getD 0 "") then [strTake (strTrim (lines.getD 0 "")) 200]
     else []) ++ nsImports (strTake content 2000)
  let final := (List.range lines.length).foldl
    (xmlStep elemMatch closeMatch nameAttrOf closeTagTest lines) ⟨[], []⟩
  ⟨final.symbols, imports0, []⟩

/-- `LanguageConfig` from `src/parsers/index.ts`. -/
structure LanguageConfig where
  language : String
  wasmFile : String
  extensions : List String
deriving DecidableEq

/-- `LANGUAGE_CONFIGS` from `src/parsers/index.ts` (lines 9-40), verbatim. -/
def LANGUAGE_CONFIGS : List LanguageConfig :=
  [⟨"typescript", "tree-sitter-typescript.wasm", [".ts", ".mts", ".cts"]⟩,
   ⟨"tsx", "tree-sitter-tsx.wasm", [".tsx"]⟩,
   ⟨"javascript", "tree-sitter-javascript.wasm", [".js", ".mjs", ".cjs", ".jsx"]⟩,
   ⟨"python", "tree-sitter-python.wasm", [".py", ".pyw"]⟩,
   ⟨"css", "tree-sitter-css.wasm", [".css"]⟩,
   ⟨"json", "tree-sitter-json.wasm", [".json"]⟩]

/-- The `extensionMap` of `src/parsers/index.ts`: every `(extension, config)`
pair.  All extensions are distinct across configs, so first-match lookup
equals the JS `Map` (last-set-wins) semantics. -/
def extensionMap : List (String × LanguageConfig) :=
  LANGUAGE_CONFIGS.flatMap (fun c => c.extensions.map (fun e => (e, c)))

/-- `getLanguageForFile` from `src/parsers/index.ts`:
`'.' + filePath.split('.').pop()?.toLowerCase()` looked up in the map. -/
def getLanguageForFile (filePath : String) : Option LanguageConfig :=
  extensionMap.lookup ("." ++ strToLower (((filePath.data.splitOn '.').map List.asString).getLast?.getD ""))

/-- The extraction strategy `parseFile` (`src/parsers/tree-sitter.ts` lines
89-98) selects for a file: tree-sitter with a WASM grammar, one of the two
regex extractors (taken when `langConfig.wasmFile` is falsy), or skipping
the file. -/
inductive ParseStrategy where
  | tree (wasmFile : String)
  | vbRegex
  | xmlRegex
  | skip
deriving DecidableEq

/-- The dispatch head of `parseFile`: resolve the language by extension;
`return null` (skip) when unknown; regex extractors when `wasmFile` is
falsy; otherwise the tree-sitter path. -/
def parseFileStrategy (filePath : String) : ParseStrategy :=
  match getLanguageForFile filePath with
  | none => ParseStrategy.skip
  | some cfg =>
    if cfg.wasmFile = "" then
      if cfg.language = "vb_net" then ParseStrategy.vbRegex
      else if cfg.language = "xml" then ParseStrategy.xmlRegex
      else ParseStrategy.skip
    else ParseStrategy.tree cfg.wasmFile

/-- Is the strategy one of the two pattern (regex) extractors? -/
def isRegexStrategy : ParseStrategy → Bool
  | ParseStrategy.vbRegex => true
  | ParseStrategy.xmlRegex => true
  | _ => false

/-! Helper lemmas. -/

theorem lookup_forall {β : Type} (P : β → Prop) :
    ∀ (l : List (String × β)), (∀ p ∈ l, P p.2) → ∀ k c, l.lookup k = some c → P c := by
  intro l
  induction l with
  | nil => intro _ k c h; simp [List.lookup] at h
  | cons p rest ih =>
    intro hall k c h
    rw [List.lookup] at h
    by_cases hk : k == p.1
    · simp [hk] at h
      exact h ▸ hall p (List.mem_cons_self p rest)
    · simp [hk] at h
      exact ih (fun q hq => hall q (List.mem_cons_of_mem p hq)) k c h

theorem strTake_length_le (s : String) (n : Nat) : (strTake s n).length ≤ n := by
  show (s.data.take n).length ≤ n
  simp [List.length_take]

theorem vbFindEnd_ge (endPat : String → Bool) (lines : List String) (i : Nat) :
    i + 1 ≤ vbFindEnd endPat lines i := by
  unfold vbFindEnd
  cases h : (List.range' (i + 1) (lines.length - (i + 1))).find?
      (fun j => endPat (lines.getD j "")) with
  | none => simp
  | some j =>
    have hj := List.mem_of_find?_eq_some h
    have := (List.mem_range'_1.mp hj).1
    simp
    omega

/-- The invariant the pattern extractors maintain for every emitted symbol:
line ordering and the trimmed-truncated signature. -/
def lineSymOk (lines : List String) (s : SymbolInfo) : Prop :=
  s.startLine ≤ s.endLine
    ∧ s.signature = strTake (strTrim (lines.getD (s.startLine - 1) "")) 200

theorem vbSymbol_ok (endPats : String → Option (String → Bool)) (lines : List String)
    (top : Option String) (i : Nat) (name kind : String) :
    lineSymOk lines (vbSymbol endPats lines top i name kind) := by
  unfold vbSymbol lineSymOk
  constructor
  · show i + 1 ≤ _
    cases hep : endPats kind with
    | none => simp
    | some ep => simpa using vbFindEnd_ge ep lines i
  · norm_num

theorem vbStepSyms_ok (pats : List VbPattern) (endPats : String → Option (String → Bool))
    (lines : List String) (top : Option String) (i : Nat) :
    ∀ s ∈ vbStepSyms pats endPats lines top i, lineSymOk lines s := by
  intro s hs
  unfold vbStepSyms at hs
  split at hs
  · exact absurd hs (List.not_mem_nil s)
  · next nk _ =>
    have := List.mem_singleton.mp hs
    exact this ▸ vbSymbol_ok endPats lines top i nk.1 nk.2

theorem vbStep_symbols (pats : List VbPattern) (endPats : String → Option (String → Bool))
    (isImport : String → Bool) (isEndContainer : String → Bool)
    (lines : List String) (st : VbState) (i : Nat) :
    ∀ s ∈ (vbStep pats endPats isImport isEndContainer lines st i).symbols,
      s ∈ st.symbols ∨ s ∈ vbStepSyms pats endPats lines st.stack.head? i := by
  intro s hs
  unfold vbStep at hs
  dsimp only at hs
  split at hs
  · exact Or.inl hs
  · exact List.mem_append.mp hs

theorem vb_symbols_ok (pats : List VbPattern) (endPats : String → Option (String → Bool))
    (isImport : String → Bool) (isEndContainer : String → Bool) (content : String) :
    ∀ s ∈ (parseVbNetWith pats endPats isImport isEndContainer content).symbols,
      lineSymOk (strSplitLines content) s := by
  unfold parseVbNetWith
  simp only
  generalize (List.range (strSplitLines content).length) = js
  suffices hgen : ∀ (js : List Nat) (st : VbState),
      (∀ s ∈ st.symbols, lineSymOk (strSplitLines content) s) →
      ∀ s ∈ (js.foldl (vbStep pats endPats isImport isEndContainer (strSplitLines content)) st).symbols,
        lineSymOk (strSplitLines content) s by
    exact hgen js ⟨[], [], []⟩ (by simp)
  intro js
  induction js with
  | nil => intro st h; simpa using h
  | cons j rest ih =>
    intro st h
    simp only [List.foldl_cons]
    refine ih _ ?_
    intro s hs
    rcases vbStep_symbols pats endPats isImport isEndContainer _ st j s hs with hold | hnew
    · exact h s hold
    · exact vbStepSyms_ok pats endPats _ st.stack.head? j s hnew

theorem xmlSymbol_ok (closeTagTest : String → String → Bool) (lines : List String)
    (top : Option String) (i : Nat) (tag : String) (nameAttr : Option String)
    (isSelfClosing : Bool) :
    lineSymOk lines (xmlSymbol closeTagTest lines top i tag nameAttr isSelfClosing) := by
  unfold xmlSymbol lineSymOk
  constructor
  · show i + 1 ≤ _
    by_cases hsc : isSelfClosing
    · simp [hsc]
    · simp only [hsc, Bool.false_eq_true, if_false]
      cases h : (List.range' (i + 1) (lines.length - (i + 1))).find?
          (fun j => closeTagTest tag (lines.getD j "")) with
      | none => simp
      | some j =>
        have hj := List.mem_of_find?_eq_some h
        have := (List.mem_range'_1.mp hj).1
        simp
        omega
  · norm_num

theorem xmlStepSyms_ok (elemMatch : String → Option (Nat × String × String))
    (nameAttrOf : String → Option String) (closeTagTest : String → String → Bool)
    (lines : List String) (stack1 : List String) (i : Nat) :
    ∀ s ∈ xmlStepSyms elemMatch nameAttrOf closeTagTest lines stack1 i, lineSymOk lines s := by
  intro s hs
  unfold xmlStepSyms at hs
  split at hs
  · exact absurd hs (List.not_mem_nil s)
  · next ita _ =>
    split at hs
    · have := List.mem_singleton.mp hs
      exact this ▸ xmlSymbol_ok closeTagTest lines stack1.head? i ita.2.1 (nameAttrOf ita.2.2) _
    · exact absurd hs (List.not_mem_nil s)

theorem xmlStep_symbols (elemMatch : String → Option (Nat × String × String))
    (closeMatch : String → Option String) (nameAttrOf : String → Option String)
    (closeTagTest : String → String → Bool)
    (lines : List String) (st : XmlState) (i : Nat) :
    ∀ s ∈ (xmlStep elemMatch closeMatch nameAttrOf closeTagTest lines st i).symbols,
      s ∈ st.symbols ∨ ∃ stack1, s ∈ xmlStepSyms elemMatch nameAttrOf closeTagTest lines stack1 i := by
  intro s hs
  unfold xmlStep at hs
  dsimp only at hs
  rcases List.mem_append.mp hs with hold | hnew
  · exact Or.inl hold
  · exact Or.inr ⟨_, hnew⟩

theorem xml_symbols_ok (elemMatch : String → Option (Nat × String × String))
    (closeMatch : String → Option String) (nameAttrOf : String → Option String)
    (closeTagTest : String → String → Bool) (isXmlDecl : String → Bool)
    (nsImports : String → List String) (content : String) :
    ∀ s ∈ (parseXmlWith elemMatch closeMatch nameAttrOf closeTagTest isXmlDecl
        nsImports content).symbols,
      lineSymOk (strSplitLines content) s := by
  unfold parseXmlWith
  simp only
  generalize (List.range (strSplitLines content).length) = js
  suffices hgen : ∀ (js : List Nat) (st : XmlState),
      (∀ s ∈ st.symbols, lineSymOk (strSplitLines content) s) →
      ∀ s ∈ (js.foldl (xmlStep elemMatch closeMatch nameAttrOf closeTagTest (strSplitLines content)) st).symbols,
        lineSymOk (strSplitLines content) s by
    exact hgen js ⟨[], []⟩ (by simp)
  intro js
  induction js with
  | nil => intro st h; simpa using h
  | cons j rest ih =>
    intro st h
    simp only [List.foldl_cons]
    refine ih _ ?_
    intro s hs
    rcases xmlStep_symbols elemMatch closeMatch nameAttrOf closeTagTest _ st j s hs with
      hold | ⟨stack1, hnew⟩
    · exact h s hold
    · exact xmlStepSyms_ok elemMatch nameAttrOf closeTagTest _ stack1 j s hnew

theorem extractSymbolInfo_fields (node : TsNode) (lines : List String)
    (parent : Option String) (s : SymbolInfo)
    (h : extractSymbolInfo node lines parent = some s) :
    s.startLine = node.startRow + 1 ∧ s.endLine = node.endRow + 1 ∧
      s.signature =
        (if 200 < (strTrim (lines.getD node.startRow "")).length then
          strTake (strTrim (lines.getD node.startRow "")) 200 ++ "..."
        else strTrim (lines.getD node.startRow "")) := by
  unfold extractSymbolInfo at h
  dsimp only at h
  split at h
  · split at h
    · exact absurd h (by simp)
    · injection h with h'
      subst h'
      refine ⟨rfl, rfl, ?_⟩
      simp only [Nat.add_sub_cancel]
  · split at h
    · exact absurd h (by simp)
    · injection h with h'
      subst h'
      refine ⟨rfl, rfl, ?_⟩
      simp only [Nat.add_sub_cancel]

/-- Claim C9: every symbol produced by extraction satisfies
`startLine ≤ endLine` — unconditionally for the pattern extractors
`parseVbNet` and `parseXml`, and for the tree-driven `extractSymbolInfo`
whenever the node's start row is at most its end row. -/
theorem extraction_startLine_le_endLine :
  (∀ (node : TsNode) (lines : List String) (parent : Option String) (s : SymbolInfo),
     node.startRow ≤ node.endRow → extractSymbolInfo node lines parent = some s →
     s.startLine ≤ s.endLine)
  ∧ (∀ (pats : List VbPattern) (endPats : String → Option (String → Bool))
       (isImport : String → Bool) (isEndContainer : String → Bool) (content : String),
     ∀ s ∈ (parseVbNetWith pats endPats isImport isEndContainer content).symbols,
       s.startLine ≤ s.endLine)
  ∧ (∀ (elemMatch : String → Option (Nat × String × String))
       (closeMatch : String → Option String) (nameAttrOf : String → Option String)
       (closeTagTest : String → String → Bool) (isXmlDecl : String → Bool)
       (nsImports : String → List String) (content : String),
     ∀ s ∈ (parseXmlWith elemMatch closeMatch nameAttrOf closeTagTest isXmlDecl
         nsImports content).symbols,
       s.startLine ≤ s.endLine) := by
  refine ⟨?_, ?_, ?_⟩
  · intro node lines parent s hrow h
    obtain ⟨h1, h2, _⟩ := extractSymbolInfo_fields node lines parent s h
    omega
  · intro pats endPats isImport isEndContainer content s hs
    exact (vb_symbols_ok pats endPats isImport isEndContainer content s hs).1
  · intro elemMatch closeMatch nameAttrOf closeTagTest isXmlDecl nsImports content s hs
    exact (xml_symbols_ok elemMatch closeMatch nameAttrOf closeTagTest isXmlDecl
      nsImports content s hs).1

/-- A concrete tree node used to instantiate the extraction theorems. -/
def wNode : TsNode :=
  ⟨"function_declaration", 2, 5, [("name", ⟨"identifier", "f"⟩)], none⟩

/-- Witness for C9: the theorem applied to a concrete node, concrete lines
and a concretely computed extraction result. -/
theorem extraction_startLine_le_endLine_witness :
    (⟨"f", "function", 3, 6, "c", none, none, "c\nd\ne"⟩ : SymbolInfo).startLine ≤
      (⟨"f", "function", 3, 6, "c", none, none, "c\nd\ne"⟩ : SymbolInfo).endLine :=
  extraction_startLine_le_endLine.1 wNode ["a", "b", "c", "d", "e", "f"] none
    ⟨"f", "function", 3, 6, "c", none, none, "c\nd\ne"⟩ (by decide) (by decide)

/-- A 201-character source line. -/
def longLine : String := (List.replicate 201 'a').asString

set_option maxRecDepth 4000 in
/-- Counterexample for C5 as stated: a tree-driven extraction whose start
line trims to 201 characters stores a signature of length 203 (the first
200 characters plus `"..."`), exceeding 200. -/
theorem signature_over_200 :
    ((extractSymbolInfo ⟨"function_declaration", 0, 0, [("name", ⟨"identifier", "f"⟩)], none⟩
        [longLine] none).map (fun s => decide (s.signature.length ≤ 200))) = some false := by
  decide

theorem strTake_length (s : String) (n : Nat) : (strTake s n).length = min n s.length := by
  show (s.data.take n).length = min n s.data.length
  simp [List.length_take]

theorem strLength_append (a b : String) : (a ++ b).length = a.length + b.length := by
  show (a.data ++ b.data).length = a.data.length + b.data.length
  simp

/-- Claim C5 (amended): the stored signature is derived from the trimmed
source line at the symbol's start line.  For the pattern extractors
(`parseVbNet`, `parseXml`) it is that line truncated to 200 characters, so
its length never exceeds 200; for tree-driven extraction a trimmed line of
length ≤ 200 is stored as-is while a longer one is stored as its first 200
characters followed by `"..."`, so its length never exceeds 203. -/
theorem signature_truncation :
  (∀ (node : TsNode) (lines : List String) (parent : Option String) (s : SymbolInfo),
     extractSymbolInfo node lines parent = some s →
     ((strTrim (lines.getD node.startRow "")).length ≤ 200 →
        s.signature = strTrim (lines.getD node.startRow "")) ∧
     (200 < (strTrim (lines.getD node.startRow "")).length →
        s.signature = strTake (strTrim (lines.getD node.startRow "")) 200 ++ "...") ∧
     s.signature.length ≤ 203)
  ∧ (∀ (pats : List VbPattern) (endPats : String → Option (String → Bool))
       (isImport : String → Bool) (isEndContainer : String → Bool) (content : String),
     ∀ s ∈ (parseVbNetWith pats endPats isImport isEndContainer content).symbols,
       s.signature = strTake (strTrim ((strSplitLines content).getD (s.startLine - 1) "")) 200
       ∧ s.signature.length ≤ 200)
  ∧ (∀ (elemMatch : String → Option (Nat × String × String))
       (closeMatch : String → Option String) (nameAttrOf : String → Option String)
       (closeTagTest : String → String → Bool) (isXmlDecl : String → Bool)
       (nsImports : String → List String) (content : String),
     ∀ s ∈ (parseXmlWith elemMatch closeMatch nameAttrOf closeTagTest isXmlDecl
         nsImports content).symbols,
       s.signature = strTake (strTrim ((strSplitLines content).getD (s.startLine - 1) "")) 200
       ∧ s.signature.length ≤ 200) := by
  refine ⟨?_, ?_, ?_⟩
  · intro node lines parent s h
    obtain ⟨_, _, hsig⟩ := extractSymbolInfo_fields node lines parent s h
    by_cases hlen : 200 < (strTrim (lines.getD node.startRow "")).length
    · rw [hsig, if_pos hlen]
      refine ⟨fun hle => absurd hlen (by omega), fun _ => rfl, ?_⟩
      rw [strLength_append, strTake_length]
      have : (("...") : String).length = 3 := rfl
      omega
    · rw [hsig, if_neg hlen]
      exact ⟨fun _ => rfl, fun hgt => absurd hgt hlen, by omega⟩
  · intro pats endPats isImport isEndContainer content s hs
    have h := (vb_symbols_ok pats endPats isImport isEndContainer content s hs).2
    refine ⟨h, ?_⟩
    rw [h]
    have := strTake_length_le (strTrim ((strSplitLines content).getD (s.startLine - 1) "")) 200
    omega
  · intro elemMatch closeMatch nameAttrOf closeTagTest isXmlDecl nsImports content s hs
    have h := (xml_symbols_ok elemMatch closeMatch nameAttrOf closeTagTest isXmlDecl
      nsImports content s hs).2
    refine ⟨h, ?_⟩
    rw [h]
    have := strTake_length_le (strTrim ((strSplitLines content).getD (s.startLine - 1) "")) 200
    omega

/-- Witness for C5 (amended): the tree-driven part applied to a concrete
extraction with a short line. -/
theorem signature_truncation_witness :
    (⟨"f", "function", 3, 6, "c", none, none, "c\nd\ne"⟩ : SymbolInfo).signature.length ≤ 203 :=
  (signature_truncation.1 wNode ["a", "b", "c", "d", "e", "f"] none
    ⟨"f", "function", 3, 6, "c", none, none, "c\nd\ne"⟩ (by decide)).2.2

/-- Claim C8 (code bug): the pattern-driven path is unreachable.  The file
`Module1.vb` resolves to no language at all (it is skipped), and in fact no
file path can ever reach `parseVbNet`/`parseXml`, because every entry of
`LANGUAGE_CONFIGS` carries a non-empty `wasmFile` and no `vb_net`/`xml`
entry exists — contradicting the README's supported-language list. -/
theorem pattern_path_unreachable :
    parseFileStrategy "Module1.vb" = ParseStrategy.skip
    ∧ ∀ filePath : String, isRegexStrategy (parseFileStrategy filePath) = false := by
  constructor
  · decide
  · intro filePath
    unfold parseFileStrategy
    cases hcfg : getLanguageForFile filePath with
    | none => rfl
    | some cfg =>
      have hwasm : cfg.wasmFile ≠ "" := by
        refine lookup_forall (fun c => c.wasmFile ≠ "") extensionMap ?_ _ cfg hcfg
        decide
      simp only [hwasm, if_false, isRegexStrategy]

/-- The `ProjectIndex` used to exhibit the `getFileOutline` store mutation:
one file whose symbols are stored at start lines `[50, 10, 30]`. -/
def outlineIdx : ProjectIndex :=
  ⟨"/r", "t", 1, 3,
    [("f.ts",
      ⟨"typescript", "h", 9,
        [⟨"a", "function", "f.ts", 50, 55, "sa", none, none, "pa"⟩,
         ⟨"b", "function", "f.ts", 10, 12, "sb", none, none, "pb"⟩,
         ⟨"c", "function", "f.ts", 30, 31, "sc", none, none, "pc"⟩],
        ["im"], ["ex"]⟩)],
    []⟩

/-- Claim C4 (code bug): on `outlineIdx` the returned outline is correctly
sorted ascending by start line with the raw import/export lists, but the
call also rewrites the stored symbols array of the file (JS
`Array.prototype.sort` sorts in place), so the `ProjectIndex` after the
call differs from the one before: the stored start lines `[50, 10, 30]`
have become `[10, 30, 50]`. -/
theorem getFileOutline_mutates_store :
    ((getFileOutline outlineIdx "f.ts").1).map
        (fun o => (o.symbols.map (fun s => s.startLine), o.imports, o.exports))
      = some ([10, 30, 50], ["im"], ["ex"])
    ∧ (((getFileOutline outlineIdx "f.ts").2).files.lookup "f.ts").map
        (fun f => f.symbols.map (fun s => s.startLine))
      = some [10, 30, 50]
    ∧ (outlineIdx.files.lookup "f.ts").map (fun f => f.symbols.map (fun s => s.startLine))
      = some [50, 10, 30] := by
  decide

theorem walkEligible_spec (ig : String → Bool) (statF : String → Option FileStat)
    (rootDir : String) (rel : String) (h : walkEligible ig statF rootDir rel = true) :
    ig rel = false ∧ ∃ info, statF (joinPath rootDir rel) = some info
      ∧ info.size ≤ MAX_FILE_SIZE ∧ info.isFile = true := by
  unfold walkEligible at h
  rcases hstat : statF (joinPath rootDir rel) with _ | info
  · rw [hstat] at h
    simp at h
  · rw [hstat] at h
    simp at h
    exact ⟨h.1, info, rfl, h.2.1, h.2.2⟩

theorem walkLoop_eq (ig : String → Bool) (statF : String → Option FileStat) (rootDir : String) :
    ∀ (l : List String) (cnt : Nat),
      walkLoop ig statF rootDir l cnt
        = ((l.filter (walkEligible ig statF rootDir)).map (walkEntry statF rootDir)).take
            (MAX_FILES - cnt) := by
  intro l
  induction l with
  | nil => intro cnt; simp [walkLoop]
  | cons rel rest ih =>
    intro cnt
    unfold walkLoop
    by_cases hcap : MAX_FILES ≤ cnt
    · have h0 : MAX_FILES - cnt = 0 := by omega
      simp [hcap, h0]
    · simp only [hcap, if_false]
      by_cases hig : ig rel
      · have helig : walkEligible ig statF rootDir rel = false := by
          unfold walkEligible
          simp [hig]
        rw [if_pos hig, ih cnt, List.filter_cons, helig]
        simp
      · rw [if_neg hig]
        rcases hstat : statF (joinPath rootDir rel) with _ | info
        · have helig : walkEligible ig statF rootDir rel = false := by
            unfold walkEligible
            rw [hstat]
            simp
          dsimp only
          rw [ih cnt, List.filter_cons, helig]
          simp
        · dsimp only
          by_cases hsize : MAX_FILE_SIZE < info.size
          · have helig : walkEligible ig statF rootDir rel = false := by
              unfold walkEligible
              rw [hstat]
              have : ¬(info.size ≤ MAX_FILE_SIZE) := by omega
              simp [this]
            rw [if_pos hsize, ih cnt, List.filter_cons, helig]
            simp
          · rw [if_neg hsize]
            by_cases hfile : info.isFile
            · have helig : walkEligible ig statF rootDir rel = true := by
                unfold walkEligible
                rw [hstat]
                have : info.size ≤ MAX_FILE_SIZE := by omega
                simp [hig, hfile, this]
              have hentry : walkEntry statF rootDir rel = ⟨rel, joinPath rootDir rel, info.size⟩ := by
                unfold walkEntry
                rw [hstat]
                rfl
              have hfb : (!info.isFile) = false := by simp [hfile]
              rw [hfb, if_neg (by simp)]
              rw [ih (cnt + 1), List.filter_cons, helig]
              simp only [if_true, List.map_cons, hentry]
              have hsucc : MAX_FILES - cnt = (MAX_FILES - (cnt + 1)) + 1 := by omega
              rw [hsucc, List.take_succ_cons]
            · have helig : walkEligible ig statF rootDir rel = false := by
                unfold walkEligible
                rw [hstat]
                simp [hfile]
              have hfb : (!info.isFile) = true := by simp [hfile]
              rw [hfb, if_pos rfl, ih cnt, List.filter_cons, helig]
              simp

/-- Claim C6: `walkDirectory` yields at most 20,000 entries, never yields an
ignored path or a file over 512 KiB, and equals the first 20,000 eligible
files of the walker's enumeration order — a deterministic truncation. -/
theorem walkDirectory_spec (ig : String → Bool) (statF : String → Option FileStat)
    (rootDir : String) (globMatches : List String) :
    (walkDirectory ig statF rootDir globMatches).length ≤ 20000
    ∧ (∀ e ∈ walkDirectory ig statF rootDir globMatches,
        ig e.relativePath = false ∧ e.sizeBytes ≤ 512 * 1024)
    ∧ walkDirectory ig statF rootDir globMatches
        = ((globMatches.filter (walkEligible ig statF rootDir)).map
            (walkEntry statF rootDir)).take 20000 := by
  have heq : walkDirectory ig statF rootDir globMatches
      = ((globMatches.filter (walkEligible ig statF rootDir)).map
          (walkEntry statF rootDir)).take 20000 := by
    unfold walkDirectory
    rw [walkLoop_eq]
    rfl
  refine ⟨?_, ?_, heq⟩
  · rw [heq, List.length_take]
    exact Nat.min_le_left _ _
  · intro e he
    rw [heq] at he
    have hmem := List.take_subset _ _ he
    obtain ⟨rel, hrel, hentry⟩ := List.mem_map.mp hmem
    have helig := List.of_mem_filter hrel
    obtain ⟨hig, info, hstat, hsize, _⟩ := walkEligible_spec ig statF rootDir rel helig
    constructor
    · have hrp : e.relativePath = rel := by rw [← hentry]; rfl
      rw [hrp]
      exact hig
    · have hsb : e.sizeBytes = ((statF (joinPath rootDir rel)).map (fun i => i.size)).getD 0 := by
        rw [← hentry]
        rfl
      rw [hsb, hstat]
      simpa using hsize

/-- Witness for C6: the theorem applied to a one-file directory listing. -/
theorem walkDirectory_spec_witness :
    (⟨"a.ts", "r/a.ts", 10⟩ : FileEntry).sizeBytes ≤ 512 * 1024 :=
  ((walkDirectory_spec (fun _ => false) (fun _ => some ⟨10, true⟩) "r" ["a.ts"]).2.1
    ⟨"a.ts", "r/a.ts", 10⟩ (by decide)).2

/-- The token-overlap count of the claim: query tokens sharing a substring
relation (either direction) with some token of the symbol name. -/
def symOverlap (queryTerms : List String) (name : String) : Nat :=
  (queryTerms.filter
    (fun t => (tokenize name).any (fun nt => strIncludes nt t || strIncludes t nt))).length

theorem symbolScore_cases (ql : String) (qts : List String) (sym : IndexedSymbol) :
    (strToLower sym.name = ql → symbolScore ql qts sym = 10)
    ∧ (strToLower sym.name ≠ ql → strStartsWith (strToLower sym.name) ql = true →
        symbolScore ql qts sym = 7)
    ∧ (strToLower sym.name ≠ ql → strStartsWith (strToLower sym.name) ql = false →
        strIncludes (strToLower sym.name) ql = true → symbolScore ql qts sym = 5)
    ∧ (strToLower sym.name ≠ ql → strStartsWith (strToLower sym.name) ql = false →
        strIncludes (strToLower sym.name) ql = false →
        symbolScore ql qts sym
          = (if 0 < symOverlap qts sym.name then
              ((symOverlap qts sym.name : ℚ) / (qts.length : ℚ)) * 3 else 0)) := by
  unfold symbolScore symOverlap
  refine ⟨fun h1 => ?_, fun h1 h2 => ?_, fun h1 h2 h3 => ?_, fun h1 h2 h3 => ?_⟩
  · rw [if_pos h1]
  · rw [if_neg h1, if_pos h2]
  · rw [if_neg h1, if_neg (by simp [h2]), if_pos h3]
  · rw [if_neg h1, if_neg (by simp [h2]), if_neg (by simp [h3])]

theorem mem_searchSymbols {index : ProjectIndex} {query : String} {kind : Option String}
    {maxResults : Nat} {r : SymbolSearchResult}
    (h : r ∈ searchSymbols index query kind maxResults) :
    ∃ p ∈ index.files, ∃ sym ∈ p.2.symbols,
      kindOk kind sym = true
      ∧ 0 < symbolScore (strToLower query) (tokenize query) sym
      ∧ r = ⟨sym, symbolScore (strToLower query) (tokenize query) sym⟩ := by
  unfold searchSymbols at h
  dsimp only at h
  have h1 := List.take_subset _ _ h
  rw [sortSymResults, List.mem_insertionSort] at h1
  obtain ⟨p, hp, hr⟩ := List.mem_flatMap.mp h1
  obtain ⟨sym, hsym, heq⟩ := List.mem_filterMap.mp hr
  split at heq
  · split at heq
    · next hscore =>
      injection heq with heq'
      exact ⟨p, hp, sym, hsym, by assumption, hscore, heq'.symm⟩
    · exact absurd heq (by simp)
  · exact absurd heq (by simp)

/-- The three-symbol corpus of the claim's example: `foo`, `fooBar`,
`barFoo`. -/
def fooSym : IndexedSymbol := ⟨"foo", "function", "a.ts", 1, 1, "foo()", none, none, "foo"⟩

/-- `fooBar` of the example corpus. -/
def fooBarSym : IndexedSymbol := ⟨"fooBar", "function", "a.ts", 2, 2, "fooBar()", none, none, "fb"⟩

/-- `barFoo` of the example corpus. -/
def barFooSym : IndexedSymbol := ⟨"barFoo", "function", "a.ts", 3, 3, "barFoo()", none, none, "bf"⟩

/-- The example index holding the three symbols. -/
def tierIdx : ProjectIndex :=
  ⟨"/r", "t", 1, 3,
    [("a.ts", ⟨"typescript", "h", 1, [fooSym, fooBarSym, barFooSym], [], []⟩)], []⟩

/-- Claim C1: every `searchSymbols` result is scored by the first applicable
rule (exact 10 / starts-with 7 / contains 5 / overlap fraction with
zero-overlap excluded) after the optional exact-kind filter; results are
sorted by descending score and truncated to `maxResults`; and on the corpus
`foo`, `fooBar`, `barFoo` with query `"foo"` the results are exactly those
symbols with scores 10, 7, 5 in that order. -/
theorem searchSymbols_tiering :
  (∀ (index : ProjectIndex) (query : String) (kind : Option String) (maxResults : Nat),
    (∀ r ∈ searchSymbols index query kind maxResults,
      0 < r.score
      ∧ (∀ k, kind = some k → r.symbol.kind = k)
      ∧ (strToLower r.symbol.name = strToLower query → r.score = 10)
      ∧ (strToLower r.symbol.name ≠ strToLower query →
          strStartsWith (strToLower r.symbol.name) (strToLower query) = true → r.score = 7)
      ∧ (strToLower r.symbol.name ≠ strToLower query →
          strStartsWith (strToLower r.symbol.name) (strToLower query) = false →
          strIncludes (strToLower r.symbol.name) (strToLower query) = true → r.score = 5)
      ∧ (strToLower r.symbol.name ≠ strToLower query →
          strStartsWith (strToLower r.symbol.name) (strToLower query) = false →
          strIncludes (strToLower r.symbol.name) (strToLower query) = false →
          0 < symOverlap (tokenize query) r.symbol.name
          ∧ r.score = ((symOverlap (tokenize query) r.symbol.name : ℚ)
              / ((tokenize query).length : ℚ)) * 3))
    ∧ (searchSymbols index query kind maxResults).Pairwise (fun a b => b.score ≤ a.score)
    ∧ (searchSymbols index query kind maxResults).length ≤ maxResults)
  ∧ searchSymbols tierIdx "foo" none 30
      = [⟨fooSym, 10⟩, ⟨fooBarSym, 7⟩, ⟨barFooSym, 5⟩] := by
  constructor
  · intro index query kind maxResults
    refine ⟨?_, ?_, ?_⟩
    · intro r hr
      obtain ⟨p, hp, sym, hsym, hkind, hscore, heq⟩ := mem_searchSymbols hr
      subst heq
      obtain ⟨hc1, hc2, hc3, hc4⟩ := symbolScore_cases (strToLower query) (tokenize query) sym
      refine ⟨hscore, ?_, hc1, hc2, hc3, ?_⟩
      · intro k hk
        subst hk
        unfold kindOk at hkind
        simpa using hkind
      · intro h1 h2 h3
        have h4 := hc4 h1 h2 h3
        by_cases hov : 0 < symOverlap (tokenize query) sym.name
        · rw [if_pos hov] at h4
          exact ⟨hov, h4⟩
        · rw [if_neg hov] at h4
          rw [h4] at hscore
          exact absurd hscore (by norm_num)
    · unfold searchSymbols
      dsimp only
      refine List.Pairwise.sublist (List.take_sublist _ _) ?_
      exact @List.sorted_insertionSort SymbolSearchResult (fun a b => b.score ≤ a.score)
        (fun _ _ => inferInstance) ⟨fun a b => le_total b.score a.score⟩
        ⟨fun _ _ _ hab hbc => le_trans hbc hab⟩ _
    · unfold searchSymbols
      dsimp only
      rw [List.length_take]
      exact Nat.min_le_left _ _
  · decide

/-- Witness for C1: the theorem applied at the example corpus, with the
membership hypothesis discharged by evaluation. -/
theorem searchSymbols_tiering_witness :
    (0 : ℚ) < (⟨fooSym, 10⟩ : SymbolSearchResult).score :=
  ((searchSymbols_tiering.1 tierIdx "foo" none 30).1 ⟨fooSym, 10⟩ (by decide)).1

theorem symbolScore_empty_query (qts : List String) (sym : IndexedSymbol) (h : sym.name ≠ "") :
    symbolScore "" qts sym = 7 := by
  unfold symbolScore
  have hne : strToLower sym.name ≠ "" := by
    intro hcontra
    apply h
    have hdata : sym.name.data.map Char.toLower = [] := congrArg String.data hcontra
    have hnil : sym.name.data = [] := List.map_eq_nil_iff.mp hdata
    exact String.ext hnil
  rw [if_neg hne]
  have hpre : strStartsWith (strToLower sym.name) "" = true := by
    show List.isPrefixOf [] (strToLower sym.name).data = true
    cases (strToLower sym.name).data <;> rfl
  rw [if_pos hpre]

theorem syms_filterMap_7 (qts : List String) (kind : Option String) :
    ∀ (syms : List IndexedSymbol), (∀ s ∈ syms, s.name ≠ "") →
    (syms.filterMap (fun sym =>
        if kindOk kind sym then
          if 0 < symbolScore "" qts sym then
            some (⟨sym, symbolScore "" qts sym⟩ : SymbolSearchResult)
          else none
        else none))
      = (syms.filter (kindOk kind)).map (fun s => (⟨s, 7⟩ : SymbolSearchResult)) := by
  intro syms
  induction syms with
  | nil => intro _; rfl
  | cons s rest ih =>
    intro hall
    have hs7 : symbolScore "" qts s = 7 :=
      symbolScore_empty_query qts s (hall s (List.mem_cons_self s rest))
    have hrest := ih (fun x hx => hall x (List.mem_cons_of_mem s hx))
    rw [List.filterMap_cons, List.filter_cons]
    by_cases hk : kindOk kind s
    · rw [hk]
      simp only [hk, if_true, hs7]
      rw [if_pos (by norm_num), hrest]
      rfl
    · have hkf : kindOk kind s = false := by simpa using hk
      rw [hkf]
      simp only [hkf, Bool.false_eq_true, if_false, hrest]

theorem pairwise_score7 :
    ∀ (l : List SymbolSearchResult), (∀ a ∈ l, a.score = 7) →
      l.Pairwise (fun a b => b.score ≤ a.score) := by
  intro l
  induction l with
  | nil => intro _; exact List.Pairwise.nil
  | cons a rest ih =>
    intro hall
    refine List.Pairwise.cons ?_ (ih (fun x hx => hall x (List.mem_cons_of_mem a hx)))
    intro b hb
    rw [hall a (List.mem_cons_self a rest), hall b (List.mem_cons_of_mem a hb)]

/-- Counterexample for C10 as stated: on an index with no files, the
empty-lowercase query returns the empty result, so "does not return an
empty result" fails for some index and maxResults. -/
theorem searchSymbols_empty_query_cex :
    searchSymbols ⟨"/r", "t", 0, 0, [], []⟩ "" none 30 = [] ∧ strToLower "" = "" :=
  ⟨rfl, rfl⟩

/-- Claim C10 (amended): when the query's lowercase form is empty and every
stored symbol name is non-empty (the data-model invariant), every symbol
passing the optional kind filter scores 7 by the starts-with rule, and
`searchSymbols` returns the first `maxResults` of them in index order; in
particular the result has length `min maxResults (number of filtered
symbols)`, non-zero as soon as both are non-zero. -/
theorem searchSymbols_empty_query (index : ProjectIndex) (query : String)
    (kind : Option String) (maxResults : Nat)
    (hq : strToLower query = "")
    (hnames : ∀ p ∈ index.files, ∀ s ∈ p.2.symbols, s.name ≠ "") :
    searchSymbols index query kind maxResults
      = ((index.files.flatMap (fun p => p.2.symbols.filter (kindOk kind))).map
          (fun s => (⟨s, 7⟩ : SymbolSearchResult))).take maxResults
    ∧ (searchSymbols index query kind maxResults).length
        = min maxResults (index.files.flatMap (fun p => p.2.symbols.filter (kindOk kind))).length := by
  have hflat : index.files.flatMap (fun p =>
        p.2.symbols.filterMap (fun sym =>
          if kindOk kind sym then
            if 0 < symbolScore "" (tokenize query) sym then
              some (⟨sym, symbolScore "" (tokenize query) sym⟩ : SymbolSearchResult)
            else none
          else none))
      = (index.files.flatMap (fun p => p.2.symbols.filter (kindOk kind))).map
          (fun s => (⟨s, 7⟩ : SymbolSearchResult)) := by
    have : ∀ (files : List (String × IndexedFile)),
        (∀ p ∈ files, ∀ s ∈ p.2.symbols, s.name ≠ "") →
        files.flatMap (fun p =>
            p.2.symbols.filterMap (fun sym =>
              if kindOk kind sym then
                if 0 < symbolScore "" (tokenize query) sym then
                  some (⟨sym, symbolScore "" (tokenize query) sym⟩ : SymbolSearchResult)
                else none
              else none))
          = (files.flatMap (fun p => p.2.symbols.filter (kindOk kind))).map
              (fun s => (⟨s, 7⟩ : SymbolSearchResult)) := by
      intro files
      induction files with
      | nil => intro _; rfl
      | cons p rest ih =>
        intro hall
        rw [List.flatMap_cons, List.flatMap_cons, List.map_append,
          syms_filterMap_7 (tokenize query) kind p.2.symbols
            (hall p (List.mem_cons_self p rest)),
          ih (fun x hx => hall x (List.mem_cons_of_mem p hx))]
    exact this index.files hnames
  have hres : searchSymbols index query kind maxResults
      = ((index.files.flatMap (fun p => p.2.symbols.filter (kindOk kind))).map
          (fun s => (⟨s, 7⟩ : SymbolSearchResult))).take maxResults := by
    unfold searchSymbols
    dsimp only
    rw [hq, hflat]
    unfold sortSymResults
    rw [List.Sorted.insertionSort_eq]
    apply pairwise_score7
    intro a ha
    obtain ⟨s, _, heq⟩ := List.mem_map.mp ha
    rw [← heq]
  refine ⟨hres, ?_⟩
  rw [hres, List.length_take, List.length_map]

/-- The one-symbol index used to witness the amended C10. -/
def w10Idx : ProjectIndex :=
  ⟨"/r", "t", 1, 1,
    [("a.ts", ⟨"typescript", "h", 1,
      [⟨"ax", "function", "a.ts", 1, 1, "ax()", none, none, "ax"⟩], [], []⟩)], []⟩

/-- Witness for C10 (amended): the theorem applied at a concrete one-symbol
index with the empty query. -/
theorem searchSymbols_empty_query_witness :
    searchSymbols w10Idx "" none 30
      = [⟨⟨"ax", "function", "a.ts", 1, 1, "ax()", none, none, "ax"⟩, 7⟩] := by
  have h := searchSymbols_empty_query w10Idx "" none 30 rfl (by decide)
  rw [h.1]
  decide

theorem collectMatched_eq (ql : String) (qts : List String) :
    ∀ (l : List (Nat × String)) (n : Nat),
      collectMatched ql qts n l
        = ((l.filter (fun p => lineMatches ql qts p.2)).take n).map
            (fun p => (⟨p.1 + 1, strTake p.2 200⟩ : MatchedLine)) := by
  intro l
  induction l with
  | nil => intro n; cases n <;> rfl
  | cons p rest ih =>
    intro n
    obtain ⟨i, line⟩ := p
    cases n with
    | zero => rfl
    | succ m =>
      simp only [collectMatched]
      rw [List.filter_cons]
      by_cases hm : lineMatches ql qts line
      · simp only [hm, if_true, List.take_succ_cons, List.map_cons, ih m]
      · have hmf : lineMatches ql qts line = false := by simpa using hm
        simp only [hmf, Bool.false_eq_true, if_false, ih (m + 1)]

theorem matchedLinesFor_eq_spec (query : String) (content? : Option String) :
    matchedLinesFor query (tokenize query) content? = specMatchedLines query content? := by
  cases content? with
  | none => rfl
  | some c =>
    unfold matchedLinesFor specMatchedLines
    exact collectMatched_eq (strToLower query) (tokenize query) (strSplitLines c).enum 5

theorem mem_searchCode {index : ProjectIndex} {query : String}
    {readF : String → Option String} {maxResults : Nat} {r : SearchResult}
    (h : r ∈ searchCode index query readF maxResults) :
    ∃ p ∈ index.files,
      0 < fileScore index.fileCount index.vocabulary (avgDlOf index) (tokenize query)
            (tokenize (docText p.1 p.2))
      ∧ r = ⟨p.1,
          fileScore index.fileCount index.vocabulary (avgDlOf index) (tokenize query)
            (tokenize (docText p.1 p.2)),
          matchedLinesFor query (tokenize query) (readF (joinPath index.rootDir p.1))⟩ := by
  unfold searchCode at h
  dsimp only at h
  split at h
  · exact absurd h (List.not_mem_nil r)
  · have h1 := List.take_subset _ _ h
    simp only [sortResults, List.mem_insertionSort] at h1
    obtain ⟨p, hp, heq⟩ := List.mem_filterMap.mp h1
    split at heq
    · next hscore =>
      injection heq with heq'
      exact ⟨p, hp, hscore, heq'.symm⟩
    · exact absurd heq (by simp)

/-- Claim C7: every `searchCode` result has a positive score, carries at
most 5 matched lines — exactly the first 5 lines of the re-read on-disk
content whose lowercase text contains the lowercased query or a query term,
each truncated to 200 characters with its 1-based line number — and a file
that cannot be re-read still appears with an empty matched-lines list. -/
theorem searchCode_matched_lines (index : ProjectIndex) (query : String)
    (readF : String → Option String) (maxResults : Nat) :
    ∀ r ∈ searchCode index query readF maxResults,
      0 < r.score
      ∧ r.matchedLines.length ≤ 5
      ∧ r.matchedLines = specMatchedLines query (readF (joinPath index.rootDir r.filePath))
      ∧ (readF (joinPath index.rootDir r.filePath) = none → r.matchedLines = []) := by
  intro r hr
  obtain ⟨p, hp, hscore, heq⟩ := mem_searchCode hr
  subst heq
  refine ⟨hscore, ?_, ?_, ?_⟩
  · show (matchedLinesFor query (tokenize query) (readF (joinPath index.rootDir p.1))).length ≤ 5
    rw [matchedLinesFor_eq_spec]
    cases hc : readF (joinPath index.rootDir p.1) with
    | none => simp [specMatchedLines]
    | some c =>
      unfold specMatchedLines
      rw [List.length_map, List.length_take]
      exact le_trans (Nat.min_le_left _ _) (by norm_num)
  · exact matchedLinesFor_eq_spec query _
  · intro hnone
    show matchedLinesFor query (tokenize query) (readF (joinPath index.rootDir p.1)) = []
    rw [hnone]
    rfl


theorem lookupTf_tfBump (t : String) :
    ∀ (m : List (String × Nat)) (s : String),
      lookupTf (tfBump m s) t = if s = t then lookupTf m t + 1 else lookupTf m t := by
  intro m
  induction m with
  | nil =>
    intro s
    by_cases hst : s = t
    · subst hst
      simp [tfBump, lookupTf, List.lookup]
    · have hb : (t == s) = false := by
        simp only [beq_eq_false_iff_ne, ne_eq]
        exact fun h => hst h.symm
      simp [tfBump, lookupTf, List.lookup, hb, hst]
  | cons kv rest ih =>
    intro s
    obtain ⟨k, v⟩ := kv
    by_cases hks : k = s
    · subst hks
      simp only [tfBump, if_pos rfl]
      by_cases hkt : k = t
      · subst hkt
        simp [lookupTf, List.lookup]
      · have hb : (t == k) = false := by
          simp only [beq_eq_false_iff_ne, ne_eq]
          exact fun h => hkt h.symm
        simp [lookupTf, List.lookup, hb, hkt]
    · simp only [tfBump, if_neg hks]
      by_cases hkt : k = t
      · subst hkt
        have hst : ¬(s = k) := fun h => hks h.symm
        simp [lookupTf, List.lookup, hst]
      · have hb : (t == k) = false := by
          simp only [beq_eq_false_iff_ne, ne_eq]
          exact fun h => hkt h.symm
        simp only [lookupTf, List.lookup, hb, Bool.false_eq_true, if_false]
        exact ih s

theorem lookupTf_buildTf (docTokens : List String) (t : String) :
    lookupTf (buildTf docTokens) t = docTokens.count t := by
  suffices hgen : ∀ (m : List (String × Nat)),
      lookupTf (docTokens.foldl tfBump m) t = lookupTf m t + docTokens.count t by
    have := hgen []
    unfold buildTf
    rw [this]
    simp [lookupTf, List.lookup]
  induction docTokens with
  | nil => intro m; simp [lookupTf]
  | cons s rest ih =>
    intro m
    rw [List.foldl_cons, ih (tfBump m s), lookupTf_tfBump t m s, List.count_cons]
    by_cases hst : s = t
    · subst hst
      simp
      omega
    · have hb : (s == t) = false := by simpa using hst
      simp [hb, hst]

theorem foldl_if_add (c : String → Nat) (g : String → ℝ) :
    ∀ (ts : List String) (init : ℝ),
      ts.foldl (fun acc t => if c t = 0 then acc else acc + g t) init
        = init + ((ts.filter (fun t => c t ≠ 0)).map g).sum := by
  intro ts
  induction ts with
  | nil => intro init; simp
  | cons t rest ih =>
    intro init
    rw [List.foldl_cons, List.filter_cons]
    by_cases hc : c t = 0
    · simp only [hc, if_true, ne_eq, not_true_eq_false, decide_False, Bool.false_eq_true, if_false]
      exact ih init
    · simp only [hc, if_false]
      rw [ih (init + g t)]
      have hd : (decide ¬c t = 0) = true := by simpa using hc
      simp only [ne_eq, hd, if_true, List.map_cons, List.sum_cons]
      ring

theorem fileScore_eq_spec (n : Nat) (vocab : List (String × Nat)) (avgDl : ℝ)
    (qts docTokens : List String) :
    fileScore n vocab avgDl qts docTokens = specFileScore n vocab avgDl qts docTokens := by
  unfold fileScore specFileScore
  have hfun : (fun (score : ℝ) (term : String) =>
      if lookupTf (buildTf docTokens) term = 0 then score
      else score + idfOf n (vocabDf vocab term)
        * tfNormOf (lookupTf (buildTf docTokens) term) docTokens.length avgDl)
      = (fun (score : ℝ) (term : String) =>
          if docTokens.count term = 0 then score
          else score + idfOf n (vocabDf vocab term)
            * tfNormOf (docTokens.count term) docTokens.length avgDl) := by
    funext score term
    rw [lookupTf_buildTf]
  rw [hfun, foldl_if_add (fun t => docTokens.count t)
    (fun t => idfOf n (vocabDf vocab t) * tfNormOf (docTokens.count t) docTokens.length avgDl)
    qts 0, zero_add]

theorem avgDl_eq_spec (index : ProjectIndex) (hN : index.fileCount = index.files.length) :
    avgDlOf index = specAvgDl index := by
  unfold avgDlOf specAvgDl
  rw [hN]
  cases hf : index.files with
  | nil => simp
  | cons p rest =>
    have h1 : 1 ≤ (p :: rest).length := by simp
    rw [Nat.max_eq_left h1]

/-- Claim C2: `searchCode` returns the empty list on a term-free query, and
otherwise realizes exactly the claim's BM25 pipeline: each file is scored by
the sum over query terms with positive term frequency of `idf * tfNorm`
(`idf = ln((N - df + 0.5)/(df + 0.5) + 1)` with the vocabulary document
frequency, `tfNorm` with `k1 = 1.2`, `b = 0.75`, `dl` the synthetic
document's token count and `avgDl` the mean over files of symbol count
plus import count), zero-score files are excluded, and results are sorted by
descending score and truncated to `maxResults`.  The hypothesis is the
documented `ProjectIndex` invariant `fileCount = |files|`, under which the
code's `sum / max(fileCount, 1)` is the claim's mean over files. -/
theorem searchCode_bm25_spec (index : ProjectIndex) (query : String)
    (readF : String → Option String) (maxResults : Nat)
    (hN : index.fileCount = index.files.length) :
    searchCode index query readF maxResults = specSearchCode index query readF maxResults
    ∧ (tokenize query = [] → searchCode index query readF maxResults = [])
    ∧ (searchCode index query readF maxResults).Pairwise (fun a b => b.score ≤ a.score)
    ∧ (searchCode index query readF maxResults).length ≤ maxResults
    ∧ (∀ r ∈ searchCode index query readF maxResults, 0 < r.score) := by
  refine ⟨?_, ?_, ?_, ?_, ?_⟩
  · unfold searchCode specSearchCode
    dsimp only
    by_cases hq : tokenize query = []
    · rw [if_pos hq, hq]
      have hf : ∀ p ∈ index.files,
          (if 0 < specFileScore index.fileCount index.vocabulary (specAvgDl index) []
              (tokenize (docText p.1 p.2)) then
            some (⟨p.1,
              specFileScore index.fileCount index.vocabulary (specAvgDl index) []
                (tokenize (docText p.1 p.2)),
              matchedLinesFor query [] (readF (joinPath index.rootDir p.1))⟩ : SearchResult)
          else none) = none := by
        intro p _
        have hz : specFileScore index.fileCount index.vocabulary (specAvgDl index) []
            (tokenize (docText p.1 p.2)) = 0 := by
          unfold specFileScore
          simp
        rw [hz, if_neg (by norm_num)]
      rw [List.filterMap_eq_nil_iff.mpr hf]
      simp [sortResults]
    · rw [if_neg hq]
      simp only [fileScore_eq_spec, avgDl_eq_spec index hN]
  · intro hq
    unfold searchCode
    dsimp only
    rw [if_pos hq]
  · unfold searchCode
    dsimp only
    by_cases hq : tokenize query = []
    · rw [if_pos hq]
      exact List.Pairwise.nil
    · rw [if_neg hq]
      refine List.Pairwise.sublist (List.take_sublist _ _) ?_
      unfold sortResults
      exact @List.sorted_insertionSort SearchResult (fun a b => b.score ≤ a.score)
        (fun _ _ => inferInstance) ⟨fun a b => le_total b.score a.score⟩
        ⟨fun _ _ _ hab hbc => le_trans hbc hab⟩ _
  · unfold searchCode
    dsimp only
    by_cases hq : tokenize query = []
    · rw [if_pos hq]
      simp
    · rw [if_neg hq, List.length_take]
      exact Nat.min_le_left _ _
  · intro r hr
    obtain ⟨p, hp, hscore, heq⟩ := mem_searchCode hr
    subst heq
    exact hscore

/-- File `a` of the monotonicity counterexample: synthetic document tokens
`["aa", "bb"]`. -/
def c3FileA : IndexedFile := ⟨"typescript", "h", 0, [], ["aa bb"], []⟩

/-- File `b`: identical to file `a` except for two extra occurrences of the
query term `"aa"` in its synthetic document. -/
def c3FileB : IndexedFile := ⟨"typescript", "h", 0, [], ["aa bb", "aa aa"], []⟩

/-- The two-file corpus of the counterexample, with the honest vocabulary
(both terms occur in both files). -/
def c3Idx : ProjectIndex :=
  ⟨"/r", "t", 2, 0, [("a", c3FileA), ("b", c3FileB)], [("aa", 2), ("bb", 2)]⟩

theorem c3_avgDl : avgDlOf c3Idx = 3 / 2 := by
  unfold avgDlOf
  show ((List.map _ [("a", c3FileA), ("b", c3FileB)]).sum) / ((max 2 1 : Nat) : ℝ) = 3 / 2
  rw [List.map_cons, List.map_cons, List.map_nil]
  show (((0 + 1 : Nat) : ℝ) + (((0 + 2 : Nat) : ℝ) + 0)) / ((2 : Nat) : ℝ) = 3 / 2
  push_cast
  norm_num

/-- Counterexample for C3 as stated: in the two-file corpus `c3Idx` with
query `"aa bb"`, file `b`'s synthetic document equals file `a`'s plus two
extra occurrences of the term `"aa"` (which has `df = 2 ≤ N`, positive idf),
yet file `b`'s `searchCode` score is strictly lower: the extra occurrences
also grow the document length, which shrinks the other term's contribution
by more than the repeated term gains. -/
theorem searchCode_monotonicity_cex :
    tokenize (docText "b" c3FileB) = tokenize (docText "a" c3FileA) ++ List.replicate 2 "aa"
    ∧ fileScore c3Idx.fileCount c3Idx.vocabulary (avgDlOf c3Idx) (tokenize "aa bb")
        (tokenize (docText "b" c3FileB))
      < fileScore c3Idx.fileCount c3Idx.vocabulary (avgDlOf c3Idx) (tokenize "aa bb")
        (tokenize (docText "a" c3FileA)) := by
  constructor
  · decide
  · have htokq : tokenize "aa bb" = ["aa", "bb"] := by decide
    have htokA : tokenize (docText "a" c3FileA) = ["aa", "bb"] := by decide
    have htokB : tokenize (docText "b" c3FileB) = ["aa", "bb", "aa", "aa"] := by decide
    have hNc : c3Idx.fileCount = 2 := rfl
    have hvoc : c3Idx.vocabulary = [("aa", 2), ("bb", 2)] := rfl
    rw [htokq, htokA, htokB, hNc, hvoc, c3_avgDl]
    have hlkA : lookupTf (buildTf ["aa", "bb"]) "aa" = 1 := by decide
    have hlkA2 : lookupTf (buildTf ["aa", "bb"]) "bb" = 1 := by decide
    have hlkB : lookupTf (buildTf ["aa", "bb", "aa", "aa"]) "aa" = 3 := by decide
    have hlkB2 : lookupTf (buildTf ["aa", "bb", "aa", "aa"]) "bb" = 1 := by decide
    have hdfa : vocabDf [("aa", 2), ("bb", 2)] "aa" = 2 := by decide
    have hdfb : vocabDf [("aa", 2), ("bb", 2)] "bb" = 2 := by decide
    simp only [fileScore, List.foldl_cons, List.foldl_nil, hlkA, hlkA2, hlkB, hlkB2, hdfa, hdfb,
      List.length_cons, List.length_nil]
    norm_num
    unfold idfOf
    have harg : (((2 : Nat) : ℝ) - ((2 : Nat) : ℝ) + 0.5) / (((2 : Nat) : ℝ) + 0.5) + 1 = 6 / 5 := by
      push_cast
      norm_num
    rw [harg]
    have hLpos : 0 < Real.log (6 / 5) := Real.log_pos (by norm_num)
    unfold tfNormOf bm25K1 bm25B
    push_cast
    have h1 : ((3 : ℝ) * (1.2 + 1)) / (3 + 1.2 * (1 - 0.75 + 0.75 * (4 / (3 / 2)))) = 22 / 19 := by
      norm_num
    have h2 : ((1 : ℝ) * (1.2 + 1)) / (1 + 1.2 * (1 - 0.75 + 0.75 * (4 / (3 / 2)))) = 22 / 37 := by
      norm_num
    have h3 : ((1 : ℝ) * (1.2 + 1)) / (1 + 1.2 * (1 - 0.75 + 0.75 * (2 / (3 / 2)))) = 22 / 25 := by
      norm_num
    rw [h1, h2, h3]
    nlinarith [hLpos]

theorem tfNormOf_nonneg (c dl : Nat) (avgDl : ℝ) (havg : 0 < avgDl) :
    0 ≤ tfNormOf c dl avgDl := by
  unfold tfNormOf bm25K1 bm25B
  apply div_nonneg
  · positivity
  · have hdl : (0 : ℝ) ≤ (dl : ℝ) / avgDl := by positivity
    positivity

theorem tfNormOf_mono (c dl d : Nat) (avgDl : ℝ) (havg : 0 < avgDl) (hcdl : c ≤ dl) :
    tfNormOf c dl avgDl ≤ tfNormOf (c + d) (dl + d) avgDl := by
  rcases Nat.eq_zero_or_pos c with hc0 | hcpos
  · subst hc0
    have h0 : tfNormOf 0 dl avgDl = 0 := by
      unfold tfNormOf
      simp
    rw [h0, Nat.zero_add]
    exact tfNormOf_nonneg d (dl + d) avgDl havg
  · unfold tfNormOf bm25K1 bm25B
    have hv : (0 : ℝ) < avgDl⁻¹ := inv_pos.mpr havg
    have hc1 : (1 : ℝ) ≤ (c : ℝ) := by exact_mod_cast hcpos
    have hcd : (c : ℝ) ≤ (dl : ℝ) := by exact_mod_cast hcdl
    have hd0 : (0 : ℝ) ≤ (d : ℝ) := by positivity
    rw [div_eq_mul_inv ((dl : ℝ)), div_eq_mul_inv (((dl + d : Nat) : ℝ))]
    push_cast
    have hD1 : (0 : ℝ) < (c : ℝ) + 1.2 * (1 - 0.75 + 0.75 * ((dl : ℝ) * avgDl⁻¹)) := by
      have : (0 : ℝ) ≤ (dl : ℝ) * avgDl⁻¹ := by positivity
      nlinarith
    have hD2 : (0 : ℝ) <
        ((c : ℝ) + (d : ℝ)) + 1.2 * (1 - 0.75 + 0.75 * (((dl : ℝ) + (d : ℝ)) * avgDl⁻¹)) := by
      have h1 : (0 : ℝ) ≤ (dl : ℝ) * avgDl⁻¹ := by positivity
      have h2 : (0 : ℝ) ≤ (d : ℝ) * avgDl⁻¹ := by positivity
      nlinarith
    rw [div_le_div_iff hD1 hD2]
    nlinarith [mul_nonneg (mul_nonneg hd0 hv.le) (sub_nonneg.mpr hcd)]

theorem idfOf_nonneg (n df : Nat) (hdf : df ≤ n) : 0 ≤ idfOf n df := by
  unfold idfOf
  apply Real.log_nonneg
  have hnum : (0 : ℝ) ≤ (n : ℝ) - (df : ℝ) + 0.5 := by
    have : (df : ℝ) ≤ (n : ℝ) := by exact_mod_cast hdf
    linarith
  have hden : (0 : ℝ) < (df : ℝ) + 0.5 := by positivity
  have := div_nonneg hnum hden.le
  linarith

/-- Claim C3 (amended): the BM25 score is monotone in occurrences of the
query term for a single-term query: with the corpus parameters fixed and
the term's document frequency at most the file count (so its idf is
non-negative — "rare" terms in particular), a synthetic document with
additional occurrences of the term appended, and otherwise identical,
scores no lower.  (For multi-term queries the property fails, because extra
occurrences also grow the document length and shrink the other terms'
contributions; see the counterexample.) -/
theorem fileScore_monotone_single_term (n : Nat) (vocab : List (String × Nat)) (avgDl : ℝ)
    (t : String) (doc : List String) (d : Nat)
    (hdf : vocabDf vocab t ≤ n) (havg : 0 < avgDl) :
    fileScore n vocab avgDl [t] doc ≤ fileScore n vocab avgDl [t] (doc ++ List.replicate d t) := by
  rw [fileScore_eq_spec, fileScore_eq_spec]
  unfold specFileScore
  have hcnt : (doc ++ List.replicate d t).count t = doc.count t + d := by
    rw [List.count_append, List.count_replicate_self]
  have hlen : (doc ++ List.replicate d t).length = doc.length + d := by
    rw [List.length_append, List.length_replicate]
  have hidf := idfOf_nonneg n (vocabDf vocab t) hdf
  by_cases hc0 : doc.count t = 0
  · by_cases hd0 : d = 0
    · subst hd0
      simp
    · have hc2 : (doc ++ List.replicate d t).count t ≠ 0 := by
        rw [hcnt, hc0]
        omega
      rw [List.filter_cons, List.filter_cons]
      simp only [hc0, ne_eq, not_true_eq_false, decide_False, Bool.false_eq_true, if_false,
        hc2, not_false_eq_true, decide_True, if_true, List.filter_nil, List.map_nil,
        List.map_cons, List.sum_nil, List.sum_cons, add_zero]
      have := tfNormOf_nonneg ((doc ++ List.replicate d t).count t)
        ((doc ++ List.replicate d t).length) avgDl havg
      positivity
  · have hc2 : (doc ++ List.replicate d t).count t ≠ 0 := by
      rw [hcnt]
      omega
    rw [List.filter_cons, List.filter_cons]
    simp only [hc0, ne_eq, not_false_eq_true, decide_True, if_true, hc2, List.filter_nil,
      List.map_cons, List.map_nil, List.sum_cons, List.sum_nil, add_zero]
    apply mul_le_mul_of_nonneg_left _ hidf
    rw [hcnt, hlen]
    exact tfNormOf_mono (doc.count t) doc.length d avgDl havg (List.count_le_length t doc)

/-- Witness for C3 (amended): the theorem applied at a concrete term,
document and corpus parameters. -/
theorem fileScore_monotone_single_term_witness :
    fileScore 1 [] 1 ["aa"] ["aa"]
      ≤ fileScore 1 [] 1 ["aa"] (["aa"] ++ List.replicate 1 "aa") :=
  fileScore_monotone_single_term 1 [] 1 "aa" ["aa"] 1 (by decide) one_pos

/-- A one-file index used to evaluate `searchCode` concretely. -/
def w7File : IndexedFile := ⟨"typescript", "h", 0, [], ["aa"], []⟩

/-- The index around `w7File`. -/
def w7Idx : ProjectIndex := ⟨"/r", "t", 1, 0, [("a", w7File)], [("aa", 1)]⟩

/-- The score `searchCode` computes for the single file of `w7Idx` under
query `"aa"`. -/
noncomputable def w7Score : ℝ :=
  fileScore w7Idx.fileCount w7Idx.vocabulary (avgDlOf w7Idx) (tokenize "aa")
    (tokenize (docText "a" w7File))

theorem w7_avgDl : avgDlOf w7Idx = 1 := by
  unfold avgDlOf
  show ((List.map _ [("a", w7File)]).sum) / ((max 1 1 : Nat) : ℝ) = 1
  rw [List.map_cons, List.map_nil]
  show (((0 + 1 : Nat) : ℝ) + 0) / ((1 : Nat) : ℝ) = 1
  push_cast
  norm_num

theorem w7_score_pos : 0 < w7Score := by
  unfold w7Score
  have htokq : tokenize "aa" = ["aa"] := by decide
  have htokd : tokenize (docText "a" w7File) = ["aa"] := by decide
  have hNc : w7Idx.fileCount = 1 := rfl
  have hvoc : w7Idx.vocabulary = [("aa", 1)] := rfl
  rw [htokq, htokd, hNc, hvoc, w7_avgDl]
  have hlk : lookupTf (buildTf ["aa"]) "aa" = 1 := by decide
  have hdf : vocabDf [("aa", 1)] "aa" = 1 := by decide
  simp only [fileScore, List.foldl_cons, List.foldl_nil, hlk, hdf, List.length_cons,
    List.length_nil]
  norm_num
  apply mul_pos
  · unfold idfOf
    apply Real.log_pos
    push_cast
    norm_num
  · unfold tfNormOf bm25K1 bm25B
    push_cast
    norm_num

theorem searchCode_w7_eval :
    searchCode w7Idx "aa" (fun _ => none) 20 = [⟨"a", w7Score, []⟩] := by
  unfold searchCode
  dsimp only
  rw [if_neg (show ¬(tokenize "aa" = []) by decide)]
  show (sortResults (List.filterMap _ [("a", w7File)])).take 20 = _
  rw [List.filterMap_cons, List.filterMap_nil]
  dsimp only
  rw [show fileScore w7Idx.fileCount w7Idx.vocabulary (avgDlOf w7Idx) (tokenize "aa")
      (tokenize (docText "a" w7File)) = w7Score from rfl]
  rw [if_pos w7_score_pos]
  rfl

/-- Witness for C7: the theorem applied to the concrete one-file index,
with the membership hypothesis discharged through the evaluated result. -/
theorem searchCode_matched_lines_witness :
    (⟨"a", w7Score, []⟩ : SearchResult).matchedLines.length ≤ 5 :=
  ((searchCode_matched_lines w7Idx "aa" (fun _ => none) 20 ⟨"a", w7Score, []⟩
    (by rw [searchCode_w7_eval]; exact List.mem_singleton_self _)).2.1)

/-- Witness for C2: the theorem applied at the concrete two-file corpus
(whose stored `fileCount` equals its number of files by `rfl`). -/
theorem searchCode_bm25_spec_witness :
    searchCode c3Idx "aa bb" (fun _ => none) 20
      = specSearchCode c3Idx "aa bb" (fun _ => none) 20 :=
  (searchCode_bm25_spec c3Idx "aa bb" (fun _ => none) 20 rfl).1
